import Mathlib

/-!
The holding pool of `src/LLD/templates/pool.h`.

A shallow embedding of `LLP::CHoldingObject` and `LLP::CHoldingPool`.

* `std::map<IndexType, HoldingType>` is an association list kept in the
  iteration order of the map (ascending keys, one pair per key); the
  predicate `CHoldingPool.WellFormed` states that order.
* `uint64`, `unsigned int` and `unsigned char` values are natural numbers; a
  reduction modulo `2 ^ w` is written wherever the C++ arithmetic or an
  implicit conversion can leave the range.
* `Core::UnifiedTimestamp()` is declared in `Core/include/unifiedtime.h`,
  outside this header: every operation that calls it takes the value it
  returns, read as a `uint64`, as the parameter `now`.
* `LOCK(MUTEX)` has no sequential effect and is not modelled.
* Container sizes (`size()`, the `int` results of `Count` and `Clean`) are
  natural numbers.
-/

set_option linter.unusedSectionVars false

namespace LLP

/-! ## `std::map` as an ordered association list -/

section Map

variable {K V : Type} [LinearOrder K]

/-- Lookup of a key, `std::map::find`: the value bound to `k`, if any. -/
def mapFind (k : K) : List (K × V) → Option V
  | [] => none
  | (k', v) :: rest => if k = k' then some v else mapFind k rest

/-- Number of elements with key `k`, `std::map::count`: 0 or 1. -/
def mapCount (k : K) (m : List (K × V)) : Nat :=
  match mapFind k m with
  | some _ => 1
  | none => 0

/-- The statement `m[k] = v`: rebinds `k` when it is present, otherwise
inserts the pair at its place in key order. -/
def mapAssign (k : K) (v : V) : List (K × V) → List (K × V)
  | [] => [(k, v)]
  | (k', v') :: rest =>
    if k < k' then (k, v) :: (k', v') :: rest
    else if k = k' then (k, v) :: rest
    else (k', v') :: mapAssign k v rest

/-- A write through the reference `m[k]` of a key that is present
(`m[k].field = x`): the value bound to `k` becomes `f` of it. -/
def mapModify (k : K) (f : V → V) : List (K × V) → List (K × V)
  | [] => []
  | (k', v') :: rest =>
    if k = k' then (k', f v') :: rest else (k', v') :: mapModify k f rest

/-- Removal by key, `std::map::erase(k)`. -/
def mapErase (k : K) : List (K × V) → List (K × V)
  | [] => []
  | (k', v') :: rest => if k = k' then rest else (k', v') :: mapErase k rest

end Map

/-! ## The holding object and the pool -/

/-- Holding object for memory maps (`CHoldingObject<ObjectType>`):
`uint64 Timestamp`, `unsigned char State`, `ObjectType Object`. -/
structure CHoldingObject (O : Type) where
  Timestamp : Nat
  State : Nat
  Object : O
deriving DecidableEq

/-- The pool `CHoldingPool<IndexType, ObjectType>`: the map of the current
holding data and the expiration time (`unsigned int`). -/
structure CHoldingPool (K O : Type) where
  mapObjects : List (K × CHoldingObject O)
  nExpirationTime : Nat
deriving DecidableEq

/-- State code of unverified data. -/
def UNVERIFIED : Nat := 254

/-- State code answered for an index that is not in the pool. -/
def NOTFOUND : Nat := 255

namespace CHoldingPool

variable {K O : Type} [LinearOrder K]

/-- Base constructor `CHoldingPool()`. -/
def base : CHoldingPool K O := ⟨[], 0⟩

/-- Expiration constructor `CHoldingPool(nExpirationTimeIn)`. -/
def withExpiration (nExpirationTimeIn : Nat) : CHoldingPool K O := ⟨[], nExpirationTimeIn⟩

/-- The representation invariant of `std::map`: keys strictly ascending
(hence pairwise distinct) in iteration order. -/
def WellFormed (P : CHoldingPool K O) : Prop :=
  P.mapObjects.Pairwise (fun a b => a.1 < b.1)

instance (P : CHoldingPool K O) : Decidable P.WellFormed := by
  unfold WellFormed; infer_instance

/-- `Has(Index)`: `return mapObjects.count(Index);` converted to `bool`. -/
def Has (P : CHoldingPool K O) (Index : K) : Bool :=
  decide (mapCount Index P.mapObjects ≠ 0)

/-- `Get(Index, Object)`: the returned flag and the final value of the
reference parameter `Object`, whose initial value is the third argument.
The read `mapObjects[Index]` happens only for a present key. -/
def Get (P : CHoldingPool K O) (Index : K) (Object : O) : Bool × O :=
  if !P.Has Index then (false, Object)
  else
    match mapFind Index P.mapObjects with
    | some h => (true, h.Object)
    | none => (true, Object)

/-- The loop of `Get(State, vObjects, nLimit)` over the entries still to be
visited; the second list is the current content of `vObjects`. -/
def GetByStateLoop (State nLimit : Nat) :
    List (K × CHoldingObject O) → List O → Bool × List O
  | [], vObjects => (decide (vObjects.length > 0), vObjects)
  | i :: rest, vObjects =>
    if nLimit ≠ 0 ∧ vObjects.length ≥ nLimit then (true, vObjects)
    else if i.2.State = State then
      GetByStateLoop State nLimit rest (vObjects ++ [i.2.Object])
    else GetByStateLoop State nLimit rest vObjects

/-- `Get(State, vObjects, nLimit)`: the returned flag and the final content
of `vObjects`, whose initial content is the third argument. -/
def GetByState (P : CHoldingPool K O) (State : Nat) (vObjects : List O) (nLimit : Nat) :
    Bool × List O :=
  GetByStateLoop State nLimit P.mapObjects vObjects

/-- `Update(Index, Object, State, nTimestamp)`: the returned flag and the
pool afterwards. The three assignments go through `mapObjects[Index]`. -/
def Update (P : CHoldingPool K O) (Index : K) (Object : O) (State nTimestamp : Nat) :
    Bool × CHoldingPool K O :=
  if !P.Has Index then (false, P)
  else
    let m1 := mapModify Index (fun h => { h with Object := Object }) P.mapObjects
    let m2 := mapModify Index (fun h => { h with State := State }) m1
    let m3 := mapModify Index (fun h => { h with Timestamp := nTimestamp }) m2
    (true, { P with mapObjects := m3 })

/-- `Add(Index, Object, State, nTimestamp)`: the returned flag and the pool
afterwards. -/
def Add (P : CHoldingPool K O) (Index : K) (Object : O) (State nTimestamp : Nat) :
    Bool × CHoldingPool K O :=
  if P.Has Index then (false, P)
  else
    let HoldingObject : CHoldingObject O := ⟨nTimestamp, State, Object⟩
    (true, { P with mapObjects := mapAssign Index HoldingObject P.mapObjects })

/-- `Add(Index, Object)` with both default arguments: state `UNVERIFIED`,
timestamp `Core::UnifiedTimestamp()`. -/
def AddDefault (now : Nat) (P : CHoldingPool K O) (Index : K) (Object : O) :
    Bool × CHoldingPool K O :=
  P.Add Index Object UNVERIFIED now

/-- `SetState(Index, State)`: the pool afterwards. -/
def SetState (now : Nat) (P : CHoldingPool K O) (Index : K) (State : Nat) :
    CHoldingPool K O :=
  if !P.Has Index then P
  else
    let m1 := mapModify Index (fun h => { h with State := State }) P.mapObjects
    let m2 := mapModify Index (fun h => { h with Timestamp := now }) m1
    { P with mapObjects := m2 }

/-- `State(Index)`. The read `mapObjects.at(Index)` happens only for a
present key. -/
def State (P : CHoldingPool K O) (Index : K) : Nat :=
  if !P.Has Index then NOTFOUND
  else
    match mapFind Index P.mapObjects with
    | some h => h.State
    | none => NOTFOUND

/-- `Remove(Index)`: the returned flag and the pool afterwards. -/
def Remove (P : CHoldingPool K O) (Index : K) : Bool × CHoldingPool K O :=
  if !P.Has Index then (false, P)
  else (true, { P with mapObjects := mapErase Index P.mapObjects })

/-- `Expired(Index, nTimestamp)`. The sum of the `uint64` timestamp and the
`unsigned int` window is a `uint64`, so it is taken modulo `2 ^ 64`; the
comparison with the current time is strict. -/
def Expired (now : Nat) (P : CHoldingPool K O) (Index : K) (nTimestamp : Nat) : Bool :=
  if !P.Has Index then true
  else
    match mapFind Index P.mapObjects with
    | some h => if (h.Timestamp + nTimestamp) % 2 ^ 64 < now then true else false
    | none => true

/-- First loop of `Clean()`: the entries still to be visited and the current
content of `vClean`. -/
def CleanScan (now : Nat) (P : CHoldingPool K O) :
    List (K × CHoldingObject O) → List K → List K
  | [], vClean => vClean
  | i :: rest, vClean =>
    if P.Expired now i.1 P.nExpirationTime then CleanScan now P rest (vClean ++ [i.1])
    else CleanScan now P rest vClean

/-- Second loop of `Clean()`: `for(auto i : vClean) Remove(i);`. -/
def CleanRemove : List K → CHoldingPool K O → CHoldingPool K O
  | [], P => P
  | i :: rest, P => CleanRemove rest (P.Remove i).2

/-- `Clean()`: the returned count `vClean.size()` and the pool afterwards. -/
def Clean (now : Nat) (P : CHoldingPool K O) : Nat × CHoldingPool K O :=
  let vClean := CleanScan now P P.mapObjects []
  (vClean.length, CleanRemove vClean P)

/-- `Count()`: `return mapObjects.size();`. -/
def Count (P : CHoldingPool K O) : Nat := P.mapObjects.length

/-- The loop of `Count(State)`; the last argument is `nCount`. -/
def CountByStateLoop (State : Nat) : List (K × CHoldingObject O) → Nat → Nat
  | [], nCount => nCount
  | i :: rest, nCount =>
    if i.2.State = State then CountByStateLoop State rest (nCount + 1)
    else CountByStateLoop State rest nCount

/-- `Count(State)`. -/
def CountByState (P : CHoldingPool K O) (State : Nat) : Nat :=
  CountByStateLoop State P.mapObjects 0

/-- The loop of `GetIndexes(vIndexes, nLimit)` over the entries still to be
visited; the second list is the current content of `vIndexes`. -/
def GetIndexesLoop (nLimit : Nat) :
    List (K × CHoldingObject O) → List K → Bool × List K
  | [], vIndexes => (decide (vIndexes.length > 0), vIndexes)
  | i :: rest, vIndexes =>
    if nLimit ≠ 0 ∧ vIndexes.length ≥ nLimit then (true, vIndexes)
    else GetIndexesLoop nLimit rest (vIndexes ++ [i.1])

/-- `GetIndexes(vIndexes, nLimit)`: the returned flag and the final content
of `vIndexes`, whose initial content is the second argument. -/
def GetIndexes (P : CHoldingPool K O) (vIndexes : List K) (nLimit : Nat) :
    Bool × List K :=
  GetIndexesLoop nLimit P.mapObjects vIndexes

/-- The loop of `GetIndexes(State, vIndexes, nLimit)`. -/
def GetIndexesByStateLoop (State nLimit : Nat) :
    List (K × CHoldingObject O) → List K → Bool × List K
  | [], vIndexes => (decide (vIndexes.length > 0), vIndexes)
  | i :: rest, vIndexes =>
    if nLimit ≠ 0 ∧ vIndexes.length ≥ nLimit then (true, vIndexes)
    else if i.2.State = State then
      GetIndexesByStateLoop State nLimit rest (vIndexes ++ [i.1])
    else GetIndexesByStateLoop State nLimit rest vIndexes

/-- `GetIndexes(State, vIndexes, nLimit)`: the returned flag and the final
content of `vIndexes`, whose initial content is the third argument. -/
def GetIndexesByState (P : CHoldingPool K O) (State : Nat) (vIndexes : List K)
    (nLimit : Nat) : Bool × List K :=
  GetIndexesByStateLoop State nLimit P.mapObjects vIndexes

/-- `SetTimestamp(Index, Timestamp)`: the pool afterwards. The parameter is an
`unsigned int`, so the value the caller passes is converted modulo `2 ^ 32`
before it is stored in the `uint64` field. -/
def SetTimestamp (P : CHoldingPool K O) (Index : K) (Timestamp : Nat) :
    CHoldingPool K O :=
  if !P.Has Index then P
  else
    { P with mapObjects :=
        mapModify Index (fun h => { h with Timestamp := Timestamp % 2 ^ 32 }) P.mapObjects }

/-- `Age(Index)`. The difference of the two `uint64` values is taken modulo
`2 ^ 64` and the result is returned as an `unsigned int`, modulo `2 ^ 32`. -/
def Age (now : Nat) (P : CHoldingPool K O) (Index : K) : Nat :=
  if !P.Has Index then 0
  else
    match mapFind Index P.mapObjects with
    | some h => (now + 2 ^ 64 - h.Timestamp) % 2 ^ 64 % 2 ^ 32
    | none => 0

/-- The stored fields lie in the ranges of their C++ types: `unsigned char`
states and `uint64` timestamps. -/
def InRange (P : CHoldingPool K O) : Prop :=
  ∀ e ∈ P.mapObjects, e.2.State < 256 ∧ e.2.Timestamp < 2 ^ 64

instance (P : CHoldingPool K O) : Decidable P.InRange := by
  unfold InRange; infer_instance

/-- The holding object stored for an index, if any (not a member of the
class: the observation in which the theorems speak about an entry). -/
def entry (P : CHoldingPool K O) (Index : K) : Option (CHoldingObject O) :=
  mapFind Index P.mapObjects

/-- The entries whose state equals `State`, in iteration order (not a member
of the class: the observation in which the theorems speak about the result
of the state queries). -/
def matching (P : CHoldingPool K O) (State : Nat) : List (K × CHoldingObject O) :=
  P.mapObjects.filter (fun e => decide (e.2.State = State))

/-- The key set in iteration order. -/
def keys (P : CHoldingPool K O) : List K := P.mapObjects.map Prod.fst

end CHoldingPool

/-! ## Sequences of calls -/

/-- One call of a mutating public member, with its arguments; the calls that
read the clock carry the value read. `AddState` has no constructor: its body
opens with `HoldingType HoldingObject();`, which declares a function, so the
member assignments that follow are ill-formed, the member cannot be
instantiated and no call of it exists. -/
inductive Op (K O : Type) where
  | Add (Index : K) (Object : O) (State nTimestamp : Nat)
  | Update (Index : K) (Object : O) (State nTimestamp : Nat)
  | SetState (now : Nat) (Index : K) (State : Nat)
  | SetTimestamp (Index : K) (Timestamp : Nat)
  | Remove (Index : K)
  | Clean (now : Nat)

namespace CHoldingPool

variable {K O : Type} [LinearOrder K]

/-- The pool after one call. -/
def step (P : CHoldingPool K O) : Op K O → CHoldingPool K O
  | Op.Add i p s t => (P.Add i p s t).2
  | Op.Update i p s t => (P.Update i p s t).2
  | Op.SetState now i s => P.SetState now i s
  | Op.SetTimestamp i t => P.SetTimestamp i t
  | Op.Remove i => (P.Remove i).2
  | Op.Clean now => (P.Clean now).2

/-- The pool after a sequence of calls, first call first. -/
def run (P : CHoldingPool K O) (ops : List (Op K O)) : CHoldingPool K O :=
  ops.foldl step P

/-- The call passes no state argument equal to `NOTFOUND`. -/
def avoidsNotFound : Op K O → Bool
  | Op.Add _ _ s _ => decide (s ≠ NOTFOUND)
  | Op.Update _ _ s _ => decide (s ≠ NOTFOUND)
  | Op.SetState _ _ s => decide (s ≠ NOTFOUND)
  | _ => true

end CHoldingPool

/-! ## Concrete pools used as examples -/

/-- The pool of the example scenario after step 4: one entry under index 1. -/
def poolOne : CHoldingPool Nat String := ⟨[(1, ⟨1010, 5, "payload1"⟩)], 60⟩

/-- A pool with three entries. -/
def poolThree : CHoldingPool Nat String :=
  ⟨[(1, ⟨1000, 254, "a"⟩), (4, ⟨1010, 5, "b"⟩), (9, ⟨1050, 254, "c"⟩)], 60⟩

/-- A pool whose only entry carries the largest `uint64` timestamp. -/
def poolWrap : CHoldingPool Nat String := ⟨[(1, ⟨18446744073709551615, 254, "a"⟩)], 0⟩

/-- A pool built with expiration time 0 holding one entry stamped 1000. -/
def poolZero : CHoldingPool Nat String := ⟨[(1, ⟨1000, 254, "a"⟩)], 0⟩

/-- The example scenario after step 2: `Add(1, "payload1")` at time 1000 on a
pool built with expiration time 60. -/
def scenarioAdded : CHoldingPool Nat String :=
  (CHoldingPool.AddDefault 1000 (CHoldingPool.withExpiration 60) 1 "payload1").2

/-- The example scenario after step 4: `SetState(1, 5)` at time 1010. -/
def scenarioSet : CHoldingPool Nat String := scenarioAdded.SetState 1010 1 5

/-! ## Facts about the association list -/

section MapLemmas

variable {K V : Type} [LinearOrder K]

theorem mapFind_mapAssign_self (k : K) (v : V) (m : List (K × V)) :
    mapFind k (mapAssign k v m) = some v := by
  induction m with
  | nil => simp [mapAssign, mapFind]
  | cons a rest ih =>
    obtain ⟨k', v'⟩ := a
    unfold mapAssign
    split_ifs with h1 h2
    · simp [mapFind]
    · simp [mapFind]
    · simp [mapFind, h2, ih]

theorem mapFind_mapAssign_ne (j k : K) (v : V) (m : List (K × V)) (hjk : j ≠ k) :
    mapFind j (mapAssign k v m) = mapFind j m := by
  induction m with
  | nil => simp [mapAssign, mapFind, hjk]
  | cons a rest ih =>
    obtain ⟨k', v'⟩ := a
    unfold mapAssign
    split_ifs with h1 h2
    · simp [mapFind, hjk]
    · subst h2
      simp [mapFind, hjk]
    · simp [mapFind, ih]

theorem length_mapAssign_absent (k : K) (v : V) (m : List (K × V))
    (h : mapFind k m = none) : (mapAssign k v m).length = m.length + 1 := by
  induction m with
  | nil => simp [mapAssign]
  | cons a rest ih =>
    obtain ⟨k', v'⟩ := a
    unfold mapAssign
    simp only [mapFind] at h
    split_ifs with h1 h2
    · simp
    · simp [h2] at h
    · simp only [h2, if_false] at h
      simp [ih h]

theorem pairwise_mapAssign (k : K) (v : V) (m : List (K × V))
    (hm : m.Pairwise (fun a b => a.1 < b.1)) :
    (mapAssign k v m).Pairwise (fun a b => a.1 < b.1) ∧
      ∀ x ∈ mapAssign k v m, x.1 = k ∨ x ∈ m := by
  induction m with
  | nil => simp [mapAssign]
  | cons a rest ih =>
    obtain ⟨k', v'⟩ := a
    rw [List.pairwise_cons] at hm
    unfold mapAssign
    split_ifs with h1 h2
    · refine ⟨?_, ?_⟩
      · rw [List.pairwise_cons]
        refine ⟨?_, List.pairwise_cons.2 hm⟩
        intro x hx
        rcases List.mem_cons.1 hx with hx | hx
        · subst hx; exact h1
        · exact lt_trans h1 (hm.1 x hx)
      · intro x hx
        rcases List.mem_cons.1 hx with hx | hx
        · left; subst hx; rfl
        · right; exact hx
    · subst h2
      refine ⟨List.pairwise_cons.2 ⟨fun x hx => hm.1 x hx, hm.2⟩, ?_⟩
      intro x hx
      rcases List.mem_cons.1 hx with hx | hx
      · left; subst hx; rfl
      · right; exact List.mem_cons_of_mem _ hx
    · obtain ⟨ih1, ih2⟩ := ih hm.2
      have hlt : k' < k := lt_of_le_of_ne (not_lt.1 h1) (Ne.symm h2)
      refine ⟨List.pairwise_cons.2 ⟨?_, ih1⟩, ?_⟩
      · intro x hx
        rcases ih2 x hx with hx | hx
        · rw [hx]; exact hlt
        · exact hm.1 x hx
      · intro x hx
        rcases List.mem_cons.1 hx with hx | hx
        · right; subst hx; exact List.mem_cons_self _ _
        · rcases ih2 x hx with hx | hx
          · left; exact hx
          · right; exact List.mem_cons_of_mem _ hx

theorem mapFind_mapModify_self (k : K) (f : V → V) (m : List (K × V)) :
    mapFind k (mapModify k f m) = (mapFind k m).map f := by
  induction m with
  | nil => simp [mapModify, mapFind]
  | cons a rest ih =>
    obtain ⟨k', v'⟩ := a
    unfold mapModify
    split_ifs with h1
    · simp [mapFind, h1]
    · simp [mapFind, h1, ih]

theorem mapFind_mapModify_ne (j k : K) (f : V → V) (m : List (K × V)) (hjk : j ≠ k) :
    mapFind j (mapModify k f m) = mapFind j m := by
  induction m with
  | nil => simp [mapModify, mapFind]
  | cons a rest ih =>
    obtain ⟨k', v'⟩ := a
    unfold mapModify
    split_ifs with h1
    · subst h1
      simp [mapFind, hjk]
    · simp [mapFind, ih]

theorem map_fst_mapModify (k : K) (f : V → V) (m : List (K × V)) :
    (mapModify k f m).map Prod.fst = m.map Prod.fst := by
  induction m with
  | nil => simp [mapModify]
  | cons a rest ih =>
    obtain ⟨k', v'⟩ := a
    unfold mapModify
    split_ifs with h1
    · simp
    · simp [ih]

theorem mapFind_eq_none_of_forall_ne (k : K) (m : List (K × V))
    (h : ∀ x ∈ m, x.1 ≠ k) : mapFind k m = none := by
  induction m with
  | nil => simp [mapFind]
  | cons a rest ih =>
    obtain ⟨k', v'⟩ := a
    have h1 : k ≠ k' := fun e => h (k', v') (List.mem_cons_self _ _) e.symm
    simp only [mapFind, h1, if_false]
    exact ih (fun x hx => h x (List.mem_cons_of_mem _ hx))

theorem mapFind_mapErase_self (k : K) (m : List (K × V))
    (hm : m.Pairwise (fun a b => a.1 < b.1)) : mapFind k (mapErase k m) = none := by
  induction m with
  | nil => simp [mapErase, mapFind]
  | cons a rest ih =>
    obtain ⟨k', v'⟩ := a
    rw [List.pairwise_cons] at hm
    unfold mapErase
    split_ifs with h1
    · subst h1
      exact mapFind_eq_none_of_forall_ne k rest (fun x hx => (ne_of_lt (hm.1 x hx)).symm)
    · simp [mapFind, h1, ih hm.2]

theorem mapFind_mapErase_ne (j k : K) (m : List (K × V)) (hjk : j ≠ k) :
    mapFind j (mapErase k m) = mapFind j m := by
  induction m with
  | nil => simp [mapErase, mapFind]
  | cons a rest ih =>
    obtain ⟨k', v'⟩ := a
    unfold mapErase
    split_ifs with h1
    · subst h1
      simp [mapFind, hjk]
    · simp [mapFind, ih]

theorem mapErase_absent (k : K) (m : List (K × V)) (h : mapFind k m = none) :
    mapErase k m = m := by
  induction m with
  | nil => simp [mapErase]
  | cons a rest ih =>
    obtain ⟨k', v'⟩ := a
    unfold mapErase
    simp only [mapFind] at h
    split_ifs with h1
    · simp [h1] at h
    · simp only [h1, if_false] at h
      rw [ih h]

theorem pairwise_mapErase (k : K) (m : List (K × V))
    (hm : m.Pairwise (fun a b => a.1 < b.1)) :
    (mapErase k m).Pairwise (fun a b => a.1 < b.1) ∧ ∀ x ∈ mapErase k m, x ∈ m := by
  induction m with
  | nil => simp [mapErase]
  | cons a rest ih =>
    obtain ⟨k', v'⟩ := a
    rw [List.pairwise_cons] at hm
    unfold mapErase
    split_ifs with h1
    · exact ⟨hm.2, fun x hx => List.mem_cons_of_mem _ hx⟩
    · obtain ⟨ih1, ih2⟩ := ih hm.2
      refine ⟨List.pairwise_cons.2 ⟨fun x hx => hm.1 x (ih2 x hx), ih1⟩, ?_⟩
      intro x hx
      rcases List.mem_cons.1 hx with hx | hx
      · subst hx; exact List.mem_cons_self _ _
      · exact List.mem_cons_of_mem _ (ih2 x hx)

theorem pairwise_mapModify (k : K) (f : V → V) (m : List (K × V))
    (hm : m.Pairwise (fun a b => a.1 < b.1)) :
    (mapModify k f m).Pairwise (fun a b => a.1 < b.1) := by
  have h1 : (m.map Prod.fst).Pairwise (fun a b => a < b) := List.pairwise_map.2 hm
  rw [← map_fst_mapModify k f m] at h1
  exact List.pairwise_map.1 h1

theorem mapFind_filter_key (q : K → Bool) (k : K) (m : List (K × V)) :
    mapFind k (m.filter (fun e => q e.1)) = if q k then mapFind k m else none := by
  induction m with
  | nil => simp [mapFind]
  | cons a rest ih =>
    obtain ⟨k', v'⟩ := a
    by_cases hq : q k' = true
    · rw [List.filter_cons_of_pos (by simpa using hq)]
      by_cases hk : k = k'
      · subst hk
        simp [mapFind, hq]
      · simp [mapFind, hk, ih]
    · rw [List.filter_cons_of_neg (by simpa using hq)]
      by_cases hk : k = k'
      · subst hk
        simp [hq] at ih ⊢
        exact ih
      · simp [mapFind, hk, ih]

theorem foldl_mapErase_cons (ks : List K) (a : K × V) (m : List (K × V))
    (ha : a.1 ∉ ks) :
    ks.foldl (fun l k => mapErase k l) (a :: m) =
      a :: ks.foldl (fun l k => mapErase k l) m := by
  induction ks generalizing m with
  | nil => rfl
  | cons k ks ih =>
    obtain ⟨k', v'⟩ := a
    have hk : k ≠ k' := fun e => ha (by simp [e])
    have hks : k' ∉ ks := fun e => ha (List.mem_cons_of_mem _ e)
    simp only [List.foldl_cons, mapErase, hk, if_false]
    exact ih (mapErase k m) hks

theorem foldl_mapErase_filter (q : K → Bool) (m : List (K × V))
    (hm : m.Pairwise (fun a b => a.1 < b.1)) :
    ((m.filter (fun e => q e.1)).map Prod.fst).foldl (fun l k => mapErase k l) m =
      m.filter (fun e => !q e.1) := by
  induction m with
  | nil => rfl
  | cons a rest ih =>
    obtain ⟨k', v'⟩ := a
    rw [List.pairwise_cons] at hm
    by_cases hq : q k' = true
    · rw [List.filter_cons_of_pos (by simpa using hq),
        List.filter_cons_of_neg (by simpa using hq)]
      simp only [List.map_cons, List.foldl_cons, mapErase, if_true]
      exact ih hm.2
    · rw [List.filter_cons_of_neg (by simpa using hq),
        List.filter_cons_of_pos (by simpa using hq)]
      rw [foldl_mapErase_cons, ih hm.2]
      intro hmem
      obtain ⟨x, hx, hxk⟩ := List.mem_map.1 hmem
      have hx2 : x ∈ rest := (List.mem_filter.1 hx).1
      have hlt := hm.1 x hx2
      simp only at hlt hxk
      rw [hxk] at hlt
      exact lt_irrefl _ hlt

theorem forall_mapAssign (Q : V → Prop) (k : K) (v : V) (m : List (K × V))
    (hv : Q v) (hm : ∀ e ∈ m, Q e.2) : ∀ e ∈ mapAssign k v m, Q e.2 := by
  induction m with
  | nil =>
    intro e he
    simp only [mapAssign, List.mem_singleton] at he
    subst he
    exact hv
  | cons a rest ih =>
    obtain ⟨k', v'⟩ := a
    have hrest : ∀ e ∈ rest, Q e.2 := fun e he => hm e (List.mem_cons_of_mem _ he)
    unfold mapAssign
    split_ifs with h1 h2
    · intro e he
      rcases List.mem_cons.1 he with he | he
      · subst he; exact hv
      · exact hm e he
    · intro e he
      rcases List.mem_cons.1 he with he | he
      · subst he; exact hv
      · exact hrest e he
    · intro e he
      rcases List.mem_cons.1 he with he | he
      · subst he; exact hm _ (List.mem_cons_self _ _)
      · exact ih hrest e he

theorem forall_mapModify (Q : V → Prop) (k : K) (f : V → V) (m : List (K × V))
    (hf : ∀ v, Q v → Q (f v)) (hm : ∀ e ∈ m, Q e.2) : ∀ e ∈ mapModify k f m, Q e.2 := by
  induction m with
  | nil => simp [mapModify]
  | cons a rest ih =>
    obtain ⟨k', v'⟩ := a
    have hrest : ∀ e ∈ rest, Q e.2 := fun e he => hm e (List.mem_cons_of_mem _ he)
    have hhead : Q v' := hm (k', v') (List.mem_cons_self _ _)
    unfold mapModify
    split_ifs with h1
    · intro e he
      rcases List.mem_cons.1 he with he | he
      · subst he; exact hf _ hhead
      · exact hrest e he
    · intro e he
      rcases List.mem_cons.1 he with he | he
      · subst he; exact hhead
      · exact ih hrest e he

theorem mem_of_mem_mapErase (k : K) (m : List (K × V)) :
    ∀ e ∈ mapErase k m, e ∈ m := by
  induction m with
  | nil => simp [mapErase]
  | cons a rest ih =>
    obtain ⟨k', v'⟩ := a
    unfold mapErase
    split_ifs with h1
    · intro e he
      exact List.mem_cons_of_mem _ he
    · intro e he
      rcases List.mem_cons.1 he with he | he
      · subst he; exact List.mem_cons_self _ _
      · exact List.mem_cons_of_mem _ (ih e he)

theorem mem_of_mapFind (k : K) (v : V) (m : List (K × V)) (h : mapFind k m = some v) :
    (k, v) ∈ m := by
  induction m with
  | nil => simp [mapFind] at h
  | cons a rest ih =>
    obtain ⟨k', v'⟩ := a
    simp only [mapFind] at h
    split_ifs at h with h1
    · cases h
      subst h1
      exact List.mem_cons_self _ _
    · exact List.mem_cons_of_mem _ (ih h)

end MapLemmas

/-! ## Facts about the pool operations -/

namespace CHoldingPool

variable {K O : Type} [LinearOrder K]

theorem Has_eq_isSome (P : CHoldingPool K O) (i : K) :
    P.Has i = (P.entry i).isSome := by
  unfold Has mapCount entry
  cases mapFind i P.mapObjects <;> simp

theorem Has_false_iff (P : CHoldingPool K O) (i : K) :
    P.Has i = false ↔ P.entry i = none := by
  rw [Has_eq_isSome]; cases P.entry i <;> simp

theorem Has_true_iff (P : CHoldingPool K O) (i : K) :
    P.Has i = true ↔ ∃ h, P.entry i = some h := by
  rw [Has_eq_isSome]; cases P.entry i <;> simp

theorem Get_of_entry (P : CHoldingPool K O) (i : K) (o : O) (h : CHoldingObject O)
    (he : P.entry i = some h) : P.Get i o = (true, h.Object) := by
  have hh : P.Has i = true := (Has_true_iff P i).2 ⟨h, he⟩
  unfold entry at he
  simp [Get, hh, he]

theorem Get_of_absent (P : CHoldingPool K O) (i : K) (o : O)
    (he : P.entry i = none) : P.Get i o = (false, o) := by
  have hh : P.Has i = false := (Has_false_iff P i).2 he
  simp [Get, hh]

theorem State_of_entry (P : CHoldingPool K O) (i : K) (h : CHoldingObject O)
    (he : P.entry i = some h) : P.State i = h.State := by
  have hh : P.Has i = true := (Has_true_iff P i).2 ⟨h, he⟩
  unfold entry at he
  simp [State, hh, he]

theorem State_of_absent (P : CHoldingPool K O) (i : K)
    (he : P.entry i = none) : P.State i = NOTFOUND := by
  have hh : P.Has i = false := (Has_false_iff P i).2 he
  simp [State, hh]

theorem Remove_mapObjects (P : CHoldingPool K O) (i : K) :
    (P.Remove i).2.mapObjects = mapErase i P.mapObjects ∧
      (P.Remove i).2.nExpirationTime = P.nExpirationTime := by
  cases h : P.Has i
  · have hnone : mapFind i P.mapObjects = none := (Has_false_iff P i).1 h
    simp [Remove, h, mapErase_absent i _ hnone]
  · simp [Remove, h]

theorem WellFormed_base : (base : CHoldingPool K O).WellFormed := by
  simp [WellFormed, base]

theorem WellFormed_withExpiration (n : Nat) :
    (withExpiration n : CHoldingPool K O).WellFormed := by
  simp [WellFormed, withExpiration]

theorem WellFormed_Add (P : CHoldingPool K O) (i : K) (p : O) (s t : Nat)
    (hwf : P.WellFormed) : (P.Add i p s t).2.WellFormed := by
  unfold Add
  cases h : P.Has i
  · exact (pairwise_mapAssign i _ P.mapObjects hwf).1
  · exact hwf

theorem WellFormed_Update (P : CHoldingPool K O) (i : K) (p : O) (s t : Nat)
    (hwf : P.WellFormed) : (P.Update i p s t).2.WellFormed := by
  unfold Update
  cases h : P.Has i
  · exact hwf
  · exact pairwise_mapModify _ _ _ (pairwise_mapModify _ _ _ (pairwise_mapModify _ _ _ hwf))

theorem WellFormed_SetState (now : Nat) (P : CHoldingPool K O) (i : K) (s : Nat)
    (hwf : P.WellFormed) : (P.SetState now i s).WellFormed := by
  unfold SetState
  cases h : P.Has i
  · exact hwf
  · exact pairwise_mapModify _ _ _ (pairwise_mapModify _ _ _ hwf)

theorem WellFormed_Remove (P : CHoldingPool K O) (i : K)
    (hwf : P.WellFormed) : (P.Remove i).2.WellFormed := by
  unfold WellFormed
  rw [(Remove_mapObjects P i).1]
  exact (pairwise_mapErase i P.mapObjects hwf).1

theorem CleanScan_eq (now : Nat) (P : CHoldingPool K O)
    (l : List (K × CHoldingObject O)) (vClean : List K) :
    CleanScan now P l vClean =
      vClean ++ (l.filter (fun e => P.Expired now e.1 P.nExpirationTime)).map Prod.fst := by
  induction l generalizing vClean with
  | nil => simp [CleanScan]
  | cons a rest ih =>
    unfold CleanScan
    cases h : P.Expired now a.1 P.nExpirationTime
    · simp [ih, h]
    · simp [ih, h]

theorem CleanRemove_mapObjects (v : List K) (P : CHoldingPool K O) :
    (CleanRemove v P).mapObjects = v.foldl (fun l k => mapErase k l) P.mapObjects ∧
      (CleanRemove v P).nExpirationTime = P.nExpirationTime := by
  induction v generalizing P with
  | nil => simp [CleanRemove]
  | cons k ks ih =>
    unfold CleanRemove
    obtain ⟨h1, h2⟩ := ih (P.Remove k).2
    rw [h1, h2, (Remove_mapObjects P k).1, (Remove_mapObjects P k).2]
    simp

theorem Clean_mapObjects (now : Nat) (P : CHoldingPool K O) (hwf : P.WellFormed) :
    (P.Clean now).2.mapObjects =
      P.mapObjects.filter (fun e => !P.Expired now e.1 P.nExpirationTime) := by
  unfold Clean
  simp only [CleanScan_eq, List.nil_append]
  rw [(CleanRemove_mapObjects _ P).1]
  exact foldl_mapErase_filter (fun k => P.Expired now k P.nExpirationTime) P.mapObjects hwf

theorem WellFormed_Clean (now : Nat) (P : CHoldingPool K O)
    (hwf : P.WellFormed) : (P.Clean now).2.WellFormed := by
  unfold WellFormed
  rw [Clean_mapObjects now P hwf]
  exact List.Pairwise.sublist (List.filter_sublist _) hwf

theorem Expired_of_absent (now : Nat) (P : CHoldingPool K O) (i : K) (w : Nat)
    (he : P.entry i = none) : P.Expired now i w = true := by
  have hh : P.Has i = false := (Has_false_iff P i).2 he
  simp [Expired, hh]

theorem Expired_of_entry (now : Nat) (P : CHoldingPool K O) (i : K) (w : Nat)
    (h : CHoldingObject O) (he : P.entry i = some h) :
    P.Expired now i w = decide ((h.Timestamp + w) % 2 ^ 64 < now) := by
  have hh : P.Has i = true := (Has_true_iff P i).2 ⟨h, he⟩
  unfold entry at he
  by_cases hlt : (h.Timestamp + w) % 2 ^ 64 < now <;> simp [Expired, hh, he, hlt]

theorem GetByStateLoop_flag (s n : Nat) (l : List (K × CHoldingObject O)) (v : List O) :
    (GetByStateLoop s n l v).1 = decide (0 < (GetByStateLoop s n l v).2.length) := by
  induction l generalizing v with
  | nil => simp [GetByStateLoop]
  | cons e rest ih =>
    unfold GetByStateLoop
    split_ifs with h1 h2
    · have : 0 < v.length := by omega
      simp [this]
    · exact ih _
    · exact ih _

theorem GetByStateLoop_unlimited (s : Nat) (l : List (K × CHoldingObject O)) (v : List O) :
    (GetByStateLoop s 0 l v).2 =
      v ++ (l.filter (fun e => decide (e.2.State = s))).map (fun e => e.2.Object) := by
  induction l generalizing v with
  | nil => simp [GetByStateLoop]
  | cons e rest ih =>
    unfold GetByStateLoop
    by_cases h2 : e.2.State = s
    · simp [h2, ih]
    · simp [h2, ih]

theorem GetByStateLoop_limited (s n : Nat) (l : List (K × CHoldingObject O)) (v : List O)
    (hn : n ≠ 0) (hv : v.length ≤ n) :
    (GetByStateLoop s n l v).2 =
      v ++ ((l.filter (fun e => decide (e.2.State = s))).map
        (fun e => e.2.Object)).take (n - v.length) := by
  induction l generalizing v with
  | nil => simp [GetByStateLoop]
  | cons e rest ih =>
    unfold GetByStateLoop
    by_cases h1 : n ≠ 0 ∧ v.length ≥ n
    · have : n - v.length = 0 := by omega
      simp [h1, this]
    · have hlt : v.length < n := by
        by_contra hc
        exact h1 ⟨hn, by omega⟩
      rw [if_neg h1]
      by_cases h2 : e.2.State = s
      · rw [if_pos h2, ih _ (by simp; omega)]
        obtain ⟨d, hd⟩ : ∃ d, n - v.length = d + 1 := ⟨n - v.length - 1, by omega⟩
        have hd2 : n - (v ++ [e.2.Object]).length = d := by simp; omega
        rw [hd, hd2, List.filter_cons_of_pos (by simpa using h2)]
        simp
      · rw [if_neg h2, ih _ hv, List.filter_cons_of_neg (by simpa using h2)]

theorem CountByStateLoop_eq (s : Nat) (l : List (K × CHoldingObject O)) (c : Nat) :
    CountByStateLoop s l c = c + (l.filter (fun e => decide (e.2.State = s))).length := by
  induction l generalizing c with
  | nil => simp [CountByStateLoop]
  | cons e rest ih =>
    unfold CountByStateLoop
    by_cases h2 : e.2.State = s
    · simp [h2, ih]; omega
    · simp [h2, ih]

theorem CountByState_eq (P : CHoldingPool K O) (s : Nat) :
    P.CountByState s = (P.matching s).length := by
  simp [CountByState, matching, CountByStateLoop_eq]

theorem GetIndexesLoop_flag (n : Nat) (l : List (K × CHoldingObject O)) (v : List K) :
    (GetIndexesLoop n l v).1 = decide (0 < (GetIndexesLoop n l v).2.length) := by
  induction l generalizing v with
  | nil => simp [GetIndexesLoop]
  | cons e rest ih =>
    unfold GetIndexesLoop
    split_ifs with h1
    · have : 0 < v.length := by omega
      simp [this]
    · exact ih _

theorem GetIndexesLoop_unlimited (l : List (K × CHoldingObject O)) (v : List K) :
    (GetIndexesLoop 0 l v).2 = v ++ l.map Prod.fst := by
  induction l generalizing v with
  | nil => simp [GetIndexesLoop]
  | cons e rest ih =>
    unfold GetIndexesLoop
    simp [ih]

theorem GetIndexesLoop_limited (n : Nat) (l : List (K × CHoldingObject O)) (v : List K)
    (hn : n ≠ 0) (hv : v.length ≤ n) :
    (GetIndexesLoop n l v).2 = v ++ (l.map Prod.fst).take (n - v.length) := by
  induction l generalizing v with
  | nil => simp [GetIndexesLoop]
  | cons e rest ih =>
    unfold GetIndexesLoop
    by_cases h1 : n ≠ 0 ∧ v.length ≥ n
    · have : n - v.length = 0 := by omega
      simp [h1, this]
    · have hlt : v.length < n := by
        by_contra hc
        exact h1 ⟨hn, by omega⟩
      rw [if_neg h1, ih _ (by simp; omega)]
      obtain ⟨d, hd⟩ : ∃ d, n - v.length = d + 1 := ⟨n - v.length - 1, by omega⟩
      have hd2 : n - (v ++ [e.1]).length = d := by simp; omega
      rw [hd, hd2]
      simp

theorem GetIndexesByStateLoop_unlimited (s : Nat) (l : List (K × CHoldingObject O))
    (v : List K) :
    (GetIndexesByStateLoop s 0 l v).2 =
      v ++ (l.filter (fun e => decide (e.2.State = s))).map Prod.fst := by
  induction l generalizing v with
  | nil => simp [GetIndexesByStateLoop]
  | cons e rest ih =>
    unfold GetIndexesByStateLoop
    by_cases h2 : e.2.State = s
    · simp [h2, ih]
    · simp [h2, ih]

theorem GetIndexesByStateLoop_limited (s n : Nat) (l : List (K × CHoldingObject O))
    (v : List K) (hn : n ≠ 0) (hv : v.length ≤ n) :
    (GetIndexesByStateLoop s n l v).2 =
      v ++ ((l.filter (fun e => decide (e.2.State = s))).map Prod.fst).take
        (n - v.length) := by
  induction l generalizing v with
  | nil => simp [GetIndexesByStateLoop]
  | cons e rest ih =>
    unfold GetIndexesByStateLoop
    by_cases h1 : n ≠ 0 ∧ v.length ≥ n
    · have : n - v.length = 0 := by omega
      simp [h1, this]
    · have hlt : v.length < n := by
        by_contra hc
        exact h1 ⟨hn, by omega⟩
      rw [if_neg h1]
      by_cases h2 : e.2.State = s
      · rw [if_pos h2, ih _ (by simp; omega)]
        obtain ⟨d, hd⟩ : ∃ d, n - v.length = d + 1 := ⟨n - v.length - 1, by omega⟩
        have hd2 : n - (v ++ [e.1]).length = d := by simp; omega
        rw [hd, hd2, List.filter_cons_of_pos (by simpa using h2)]
        simp
      · rw [if_neg h2, ih _ hv, List.filter_cons_of_neg (by simpa using h2)]

theorem mem_keys_iff_Has (P : CHoldingPool K O) (i : K) :
    i ∈ P.keys ↔ P.Has i = true := by
  rw [Has_eq_isSome]
  unfold keys entry
  induction P.mapObjects with
  | nil => simp [mapFind]
  | cons a rest ih =>
    obtain ⟨k', v'⟩ := a
    by_cases hk : i = k'
    · simp [mapFind, hk]
    · simp only [List.map_cons, List.mem_cons, hk, false_or, mapFind, if_false]
      exact ih

theorem keys_pairwise (P : CHoldingPool K O) (hwf : P.WellFormed) :
    P.keys.Pairwise (fun a b => a < b) :=
  List.pairwise_map.2 hwf

theorem keys_nodup (P : CHoldingPool K O) (hwf : P.WellFormed) : P.keys.Nodup :=
  (keys_pairwise P hwf).imp (fun h => ne_of_lt h)

theorem sum_filter_state_length (S : Finset Nat) (l : List (K × CHoldingObject O))
    (hS : ∀ e ∈ l, e.2.State ∈ S) :
    (∑ s in S, (l.filter (fun e => decide (e.2.State = s))).length) = l.length := by
  induction l with
  | nil => simp
  | cons a rest ih =>
    have h1 : ∀ s, ((a :: rest).filter (fun e => decide (e.2.State = s))).length =
        (rest.filter (fun e => decide (e.2.State = s))).length +
          (if a.2.State = s then 1 else 0) := by
      intro s
      by_cases h : a.2.State = s
      · simp [h]
      · simp [h]
    simp only [h1, Finset.sum_add_distrib]
    rw [ih (fun e he => hS e (List.mem_cons_of_mem _ he)), Finset.sum_ite_eq]
    simp [hS a (List.mem_cons_self _ _)]

theorem mem_of_mem_CleanRemove (v : List K) (P : CHoldingPool K O) :
    ∀ e ∈ (CleanRemove v P).mapObjects, e ∈ P.mapObjects := by
  induction v generalizing P with
  | nil => simp [CleanRemove]
  | cons k ks ih =>
    intro e he
    unfold CleanRemove at he
    have h1 := ih (P.Remove k).2 e he
    rw [(Remove_mapObjects P k).1] at h1
    exact mem_of_mem_mapErase k _ e h1

theorem step_keeps (Q : CHoldingObject O → Prop) (P : CHoldingPool K O)
    (op : Op K O) (hQ : ∀ e ∈ P.mapObjects, Q e.2)
    (hstate : ∀ h s, (avoidsNotFound op = true → s ≠ NOTFOUND) → Q h →
      Q { h with State := s })
    (hfresh : ∀ t s p, (avoidsNotFound op = true → s ≠ NOTFOUND) → Q ⟨t, s, p⟩)
    (hobj : ∀ h p, Q h → Q { h with Object := p })
    (htime : ∀ h t, Q h → Q { h with Timestamp := t }) :
    ∀ e ∈ (P.step op).mapObjects, Q e.2 := by
  cases op with
  | Add i p s t =>
    simp only [step, Add]
    cases P.Has i
    · exact forall_mapAssign Q i _ _ (hfresh t s p (by simp [avoidsNotFound])) hQ
    · exact hQ
  | Update i p s t =>
    simp only [step, Update]
    cases P.Has i
    · exact hQ
    · refine forall_mapModify Q i _ _ (fun h hh => htime h t hh) ?_
      refine forall_mapModify Q i _ _
        (fun h hh => hstate h s (by simp [avoidsNotFound]) hh) ?_
      exact forall_mapModify Q i _ _ (fun h hh => hobj h p hh) hQ
  | SetState now i s =>
    simp only [step, SetState]
    cases P.Has i
    · exact hQ
    · refine forall_mapModify Q i _ _ (fun h hh => htime h now hh) ?_
      exact forall_mapModify Q i _ _
        (fun h hh => hstate h s (by simp [avoidsNotFound]) hh) hQ
  | SetTimestamp i t =>
    simp only [step, SetTimestamp]
    cases P.Has i
    · exact hQ
    · exact forall_mapModify Q i _ _ (fun h hh => htime h _ hh) hQ
  | Remove i =>
    simp only [step]
    rw [(Remove_mapObjects P i).1]
    exact fun e he => hQ e (mem_of_mem_mapErase i _ e he)
  | Clean now =>
    simp only [step, Clean]
    exact fun e he => hQ e (mem_of_mem_CleanRemove _ P e he)

theorem Clean_entry (now : Nat) (P : CHoldingPool K O) (hwf : P.WellFormed) (i : K) :
    (P.Clean now).2.entry i =
      if P.Expired now i P.nExpirationTime then none else P.entry i := by
  unfold entry
  rw [Clean_mapObjects now P hwf,
    mapFind_filter_key (fun k => !P.Expired now k P.nExpirationTime) i P.mapObjects]
  cases P.Expired now i P.nExpirationTime <;> simp

theorem Clean_fst (now : Nat) (P : CHoldingPool K O) :
    (P.Clean now).1 =
      (P.mapObjects.filter (fun e => P.Expired now e.1 P.nExpirationTime)).length := by
  unfold Clean
  simp [CleanScan_eq]

theorem Age_of_entry (now : Nat) (P : CHoldingPool K O) (i : K)
    (h : CHoldingObject O) (he : P.entry i = some h) :
    P.Age now i = (now + 2 ^ 64 - h.Timestamp) % 2 ^ 64 % 2 ^ 32 := by
  have hh : P.Has i = true := (Has_true_iff P i).2 ⟨h, he⟩
  unfold entry at he
  simp [Age, hh, he]

end CHoldingPool

/-! ## Add, Update, SetState, Remove -/

namespace CHoldingPool

variable {K O : Type} [LinearOrder K]

/-- C1: for an index `i` that the pool does not hold, `Add(i, p, s, t)` returns
true; afterwards `Has(i)` holds, `Get(i)` returns `(true, p)`, `State(i)` is
`s` (254 when state and timestamp are left to their defaults), the entry of
`i` is `(t, s, p)`, `Count()` is one more than before, and every other index
has the entry it had. -/
theorem Add_absent (P : CHoldingPool K O) (i : K) (p : O) (s t : Nat)
    (h : P.Has i = false) :
    (P.Add i p s t).1 = true ∧
    (P.Add i p s t).2.Has i = true ∧
    (∀ o, (P.Add i p s t).2.Get i o = (true, p)) ∧
    (P.Add i p s t).2.State i = s ∧
    (∀ now, (P.AddDefault now i p).2.State i = 254) ∧
    (P.Add i p s t).2.entry i = some ⟨t, s, p⟩ ∧
    (P.Add i p s t).2.Count = P.Count + 1 ∧
    (∀ j, j ≠ i → (P.Add i p s t).2.entry j = P.entry j) := by
  have hent : ∀ s' t', (P.Add i p s' t').2.entry i = some ⟨t', s', p⟩ := by
    intro s' t'
    simp [Add, h, entry, mapFind_mapAssign_self]
  refine ⟨by simp [Add, h], ?_, ?_, ?_, ?_, hent s t, ?_, ?_⟩
  · exact (Has_true_iff _ i).2 ⟨_, hent s t⟩
  · intro o
    rw [Get_of_entry _ i o _ (hent s t)]
  · rw [State_of_entry _ i _ (hent s t)]
  · intro now
    unfold AddDefault
    rw [State_of_entry _ i _ (hent UNVERIFIED now)]
    rfl
  · have hnone : mapFind i P.mapObjects = none := (Has_false_iff P i).1 h
    simp [Add, h, Count, length_mapAssign_absent i _ P.mapObjects hnone]
  · intro j hj
    simp [Add, h, entry, mapFind_mapAssign_ne j i _ P.mapObjects hj]

/-- Witness of C1 on `poolThree` and the absent index 5. -/
theorem Add_absent_witness :
    poolThree.Has 5 = false ∧
    (poolThree.Add 5 "x" 3 7).1 = true ∧
    (poolThree.Add 5 "x" 3 7).2.entry 5 = some ⟨7, 3, "x"⟩ ∧
    (poolThree.Add 5 "x" 3 7).2.Count = poolThree.Count + 1 :=
  ⟨by decide, (Add_absent poolThree 5 "x" 3 7 (by decide)).1,
    (Add_absent poolThree 5 "x" 3 7 (by decide)).2.2.2.2.2.1,
    (Add_absent poolThree 5 "x" 3 7 (by decide)).2.2.2.2.2.2.1⟩

/-- C2: for an index `i` that the pool already holds, `Add(i, p2, s2, t2)`
returns false and the pool afterwards is the pool before: the entry of `i` and
all other entries are untouched. -/
theorem Add_present (P : CHoldingPool K O) (i : K) (p2 : O) (s2 t2 : Nat)
    (h : P.Has i = true) :
    (P.Add i p2 s2 t2).1 = false ∧
    (P.Add i p2 s2 t2).2 = P ∧
    (∀ j, (P.Add i p2 s2 t2).2.entry j = P.entry j) := by
  have h2 : (P.Add i p2 s2 t2).2 = P := by simp [Add, h]
  exact ⟨by simp [Add, h], h2, fun j => by rw [h2]⟩

/-- Witness of C2 on `poolThree` and the present index 4. -/
theorem Add_present_witness :
    poolThree.Has 4 = true ∧
    (poolThree.Add 4 "z" 9 77).1 = false ∧
    (poolThree.Add 4 "z" 9 77).2 = poolThree :=
  ⟨by decide, (Add_present poolThree 4 "z" 9 77 (by decide)).1,
    (Add_present poolThree 4 "z" 9 77 (by decide)).2.1⟩

/-- C3: `Update(i, p, s, t)` returns true exactly when `i` is present; when
present, the entry of `i` becomes `(t, s, p)`, the key set is the same and all
other entries are untouched; when absent, the pool afterwards is the pool
before. -/
theorem Update_spec (P : CHoldingPool K O) (i : K) (p : O) (s t : Nat) :
    ((P.Update i p s t).1 = true ↔ P.Has i = true) ∧
    (P.Has i = true →
      (P.Update i p s t).2.entry i = some ⟨t, s, p⟩ ∧
      (P.Update i p s t).2.keys = P.keys ∧
      (∀ j, j ≠ i → (P.Update i p s t).2.entry j = P.entry j)) ∧
    (P.Has i = false →
      (P.Update i p s t).2 = P ∧ (P.Update i p s t).2.Has i = false) := by
  refine ⟨?_, ?_, ?_⟩
  · cases h : P.Has i <;> simp [Update, h]
  · intro h
    obtain ⟨h0, he⟩ := (Has_true_iff P i).1 h
    unfold entry at he
    refine ⟨?_, ?_, ?_⟩
    · simp [Update, h, entry, mapFind_mapModify_self, he]
    · simp [Update, h, keys, map_fst_mapModify]
    · intro j hj
      simp [Update, h, entry, mapFind_mapModify_ne j i _ _ hj]
  · intro h
    have h2 : (P.Update i p s t).2 = P := by simp [Update, h]
    exact ⟨h2, by rw [h2]; exact h⟩

/-- Witness of C3 on `poolThree`: the present index 4 and the absent index 5. -/
theorem Update_spec_witness :
    poolThree.Has 4 = true ∧
    (poolThree.Update 4 "z" 9 77).2.entry 4 = some ⟨77, 9, "z"⟩ ∧
    poolThree.Has 5 = false ∧
    (poolThree.Update 5 "z" 9 77).2 = poolThree :=
  ⟨by decide, ((Update_spec poolThree 4 "z" 9 77).2.1 (by decide)).1,
    by decide, ((Update_spec poolThree 5 "z" 9 77).2.2 (by decide)).1⟩

/-- C4: with the time source at `now`, `SetState(i, s)` on a present index
sets the state of its entry to `s` and its timestamp to `now`, keeps its
payload (`Get(i)` answers as before) and leaves all other entries untouched;
on an absent index the pool afterwards is the pool before. -/
theorem SetState_spec (now : Nat) (P : CHoldingPool K O) (i : K) (s : Nat) :
    (∀ h0, P.entry i = some h0 →
      (P.SetState now i s).entry i = some ⟨now, s, h0.Object⟩ ∧
      (∀ o, (P.SetState now i s).Get i o = P.Get i o) ∧
      (P.SetState now i s).keys = P.keys ∧
      (∀ j, j ≠ i → (P.SetState now i s).entry j = P.entry j)) ∧
    (P.Has i = false →
      P.SetState now i s = P ∧ (P.SetState now i s).Has i = false) := by
  refine ⟨?_, ?_⟩
  · intro h0 he
    have h : P.Has i = true := (Has_true_iff P i).2 ⟨h0, he⟩
    have hnew : (P.SetState now i s).entry i = some ⟨now, s, h0.Object⟩ := by
      unfold entry at he
      simp [SetState, h, entry, mapFind_mapModify_self, he]
    refine ⟨hnew, ?_, ?_, ?_⟩
    · intro o
      rw [Get_of_entry _ i o _ hnew, Get_of_entry _ i o _ he]
    · simp [SetState, h, keys, map_fst_mapModify]
    · intro j hj
      simp [SetState, h, entry, mapFind_mapModify_ne j i _ _ hj]
  · intro h
    have h2 : P.SetState now i s = P := by simp [SetState, h]
    exact ⟨h2, by rw [h2]; exact h⟩

/-- Witness of C4 on `poolThree`: the present index 4 and the absent index 5. -/
theorem SetState_spec_witness :
    poolThree.entry 4 = some ⟨1010, 5, "b"⟩ ∧
    (poolThree.SetState 1020 4 8).entry 4 = some ⟨1020, 8, "b"⟩ ∧
    poolThree.Has 5 = false ∧
    poolThree.SetState 1020 5 8 = poolThree :=
  ⟨by decide, ((SetState_spec 1020 poolThree 4 8).1 ⟨1010, 5, "b"⟩ (by decide)).1,
    by decide, ((SetState_spec 1020 poolThree 5 8).2 (by decide)).1⟩

/-- C5: `Remove(i)` returns true exactly when `i` was present; afterwards
`Has(i)` is false, `Get(i)` answers not found, `State(i)` is 255, and every
other index is present as before with the entry it had. -/
theorem Remove_spec (P : CHoldingPool K O) (i : K) (hwf : P.WellFormed) :
    ((P.Remove i).1 = true ↔ P.Has i = true) ∧
    (P.Remove i).2.Has i = false ∧
    (∀ o, ((P.Remove i).2.Get i o).1 = false) ∧
    (P.Remove i).2.State i = 255 ∧
    (∀ j, j ≠ i → (P.Remove i).2.Has j = P.Has j ∧
      (P.Remove i).2.entry j = P.entry j) := by
  have hmap : (P.Remove i).2.mapObjects = mapErase i P.mapObjects := by
    cases h : P.Has i
    · have hnone : mapFind i P.mapObjects = none := (Has_false_iff P i).1 h
      simp [Remove, h, mapErase_absent i _ hnone]
    · simp [Remove, h]
  have hnone : (P.Remove i).2.entry i = none := by
    unfold entry
    rw [hmap]
    exact mapFind_mapErase_self i _ hwf
  have hother : ∀ j, j ≠ i → (P.Remove i).2.entry j = P.entry j := by
    intro j hj
    unfold entry
    rw [hmap]
    exact mapFind_mapErase_ne j i _ hj
  refine ⟨?_, (Has_false_iff _ i).2 hnone, ?_, ?_, ?_⟩
  · cases h : P.Has i <;> simp [Remove, h]
  · intro o
    rw [Get_of_absent _ i o hnone]
  · rw [State_of_absent _ i hnone]
    rfl
  · intro j hj
    refine ⟨?_, hother j hj⟩
    rw [Has_eq_isSome, Has_eq_isSome, hother j hj]

/-- Witness of C5 on `poolThree` and index 4. -/
theorem Remove_spec_witness :
    poolThree.WellFormed ∧
    (poolThree.Remove 4).2.Has 4 = false ∧
    (poolThree.Remove 4).2.State 4 = 255 :=
  ⟨by decide, (Remove_spec poolThree 4 (by decide)).2.1,
    (Remove_spec poolThree 4 (by decide)).2.2.2.1⟩

/-! ## Clean and Expired -/

/-- C6: with the time source fixed at `now`, `Clean()` leaves in the pool exactly
the indexes for which `Expired(i, nExpirationTime)` was false before the call
(so it removes exactly the present indexes for which it was true), returns the
number of keys for which it was true, which is `Count()` before minus
`Count()` after, and every index that was not expired keeps its entry. -/
theorem Clean_spec (now : Nat) (P : CHoldingPool K O) (hwf : P.WellFormed) :
    (∀ i, (P.Clean now).2.Has i = !P.Expired now i P.nExpirationTime) ∧
    (∀ i, P.Has i = true → P.Expired now i P.nExpirationTime = true →
      (P.Clean now).2.Has i = false) ∧
    (P.Clean now).1 =
      (P.keys.filter (fun i => P.Expired now i P.nExpirationTime)).length ∧
    (P.Clean now).1 = P.Count - (P.Clean now).2.Count ∧
    (P.Clean now).2.Count ≤ P.Count ∧
    (∀ i, P.Expired now i P.nExpirationTime = false →
      (P.Clean now).2.Has i = true ∧ (P.Clean now).2.entry i = P.entry i) := by
  have hmap := Clean_mapObjects now P hwf
  have hent : ∀ i, (P.Clean now).2.entry i =
      if P.Expired now i P.nExpirationTime then none else P.entry i := by
    intro i
    unfold entry
    rw [hmap]
    have := mapFind_filter_key (fun k => !P.Expired now k P.nExpirationTime) i P.mapObjects
    rw [this]
    cases P.Expired now i P.nExpirationTime <;> simp
  have hhas : ∀ i, (P.Clean now).2.Has i = !P.Expired now i P.nExpirationTime := by
    intro i
    rw [Has_eq_isSome, hent i]
    cases hE : P.Expired now i P.nExpirationTime
    · cases he : P.entry i with
      | none => rw [Expired_of_absent now P i _ he] at hE; cases hE
      | some h0 => simp
    · simp
  have hret : (P.Clean now).1 =
      (P.keys.filter (fun i => P.Expired now i P.nExpirationTime)).length := by
    unfold Clean keys
    simp only [CleanScan_eq, List.nil_append, List.length_map]
    rw [List.filter_map, List.length_map]
    rfl
  have hsum : (P.Clean now).1 + (P.Clean now).2.Count = P.Count := by
    rw [hret]
    unfold Count keys
    rw [hmap, List.filter_map, List.length_map]
    have := List.length_eq_length_filter_add (l := P.mapObjects)
      (fun e : K × CHoldingObject O => P.Expired now e.1 P.nExpirationTime)
    rw [this]
    rfl
  refine ⟨hhas, ?_, hret, by omega, by omega, ?_⟩
  · intro i _ hE
    rw [hhas i, hE]
    rfl
  · intro i hE
    refine ⟨by rw [hhas i, hE]; rfl, ?_⟩
    rw [hent i, hE]
    simp

/-- Witness of C6 on `poolThree` at time 1075 (window 60): indexes 1 and 4 are
expired, index 9 is not. -/
theorem Clean_spec_witness :
    poolThree.WellFormed ∧
    poolThree.Expired 1075 9 poolThree.nExpirationTime = false ∧
    (poolThree.Clean 1075).1 = poolThree.Count - (poolThree.Clean 1075).2.Count ∧
    (poolThree.Clean 1075).2.entry 9 = poolThree.entry 9 :=
  ⟨by decide, by decide, (Clean_spec 1075 poolThree (by decide)).2.2.2.1,
    ((Clean_spec 1075 poolThree (by decide)).2.2.2.2.2 9 (by decide)).2⟩

/-- C7 (as stated, refuted): the only entry of `poolWrap` has timestamp
`2 ^ 64 - 1`; with window 1 and current time 5 the exact sum `2 ^ 64` is not
below 5, yet `Expired` answers true. -/
theorem Expired_exact_sum_counterexample :
    poolWrap.entry 1 = some ⟨18446744073709551615, 254, "a"⟩ ∧
    18446744073709551615 < 2 ^ 64 ∧
    ¬ (poolWrap.Expired 5 1 1 = true ↔ 18446744073709551615 + 1 < 5) := by
  decide

/-- C7 (amended): `Expired(i, w)` is true for an absent index; for an index
present with timestamp `t` it is true exactly when `(t + w) mod 2 ^ 64 < now`,
which is `t + w < now` whenever the sum stays below `2 ^ 64`. -/
theorem Expired_wrapping (now : Nat) (P : CHoldingPool K O) (i : K) (w : Nat) :
    (P.Has i = false → P.Expired now i w = true) ∧
    (∀ h, P.entry i = some h →
      (P.Expired now i w = true ↔ (h.Timestamp + w) % 2 ^ 64 < now)) ∧
    (∀ h, P.entry i = some h → h.Timestamp + w < 2 ^ 64 →
      (P.Expired now i w = true ↔ h.Timestamp + w < now)) := by
  refine ⟨?_, ?_, ?_⟩
  · intro h
    exact Expired_of_absent now P i w ((Has_false_iff P i).1 h)
  · intro h he
    rw [Expired_of_entry now P i w h he]
    simp
  · intro h he hlt
    rw [Expired_of_entry now P i w h he, Nat.mod_eq_of_lt hlt]
    simp

/-- Witness of C7 (amended) on `poolWrap`, window 1, time 5. -/
theorem Expired_wrapping_witness :
    poolWrap.entry 1 = some ⟨18446744073709551615, 254, "a"⟩ ∧
    (poolWrap.Expired 5 1 1 = true ↔ (18446744073709551615 + 1) % 2 ^ 64 < 5) :=
  ⟨by decide, (Expired_wrapping 5 poolWrap 1 1).2.1 ⟨18446744073709551615, 254, "a"⟩ (by decide)⟩

/-- C8 (as stated, refuted): the entry of `poolOne` has timestamp 1010; with
window 60 at current time 1070 we have `now ≥ timestamp + w`, yet `Expired`
answers false. -/
theorem Expired_boundary_counterexample :
    poolOne.entry 1 = some ⟨1010, 5, "payload1"⟩ ∧
    1070 ≥ 1010 + 60 ∧
    poolOne.Expired 1070 1 60 = false ∧
    ¬ (poolOne.Expired 1070 1 60 = true ↔ 1070 ≥ 1010 + 60) := by
  decide

/-- C8 (amended): for a present index with timestamp `t` and `t + w` below
`2 ^ 64`, `Expired(i, w)` is true exactly when `now > t + w`, so it is false
when `now = t + w`; for an absent index it is true for every window. -/
theorem Expired_strict (now : Nat) (P : CHoldingPool K O) (i : K) (w : Nat) :
    (∀ h, P.entry i = some h → h.Timestamp + w < 2 ^ 64 →
      (P.Expired now i w = true ↔ now > h.Timestamp + w) ∧
      (now = h.Timestamp + w → P.Expired now i w = false)) ∧
    (P.Has i = false → ∀ w', P.Expired now i w' = true) := by
  refine ⟨?_, ?_⟩
  · intro h he hlt
    rw [Expired_of_entry now P i w h he, Nat.mod_eq_of_lt hlt]
    refine ⟨by simp, ?_⟩
    intro hnow
    simp [hnow]
  · intro h w'
    exact Expired_of_absent now P i w' ((Has_false_iff P i).1 h)

/-- Witness of C8 (amended) on `poolOne`, window 60, time 1070. -/
theorem Expired_strict_witness :
    poolOne.entry 1 = some ⟨1010, 5, "payload1"⟩ ∧
    1010 + 60 < 2 ^ 64 ∧
    (poolOne.Expired 1070 1 60 = true ↔ 1070 > 1010 + 60) :=
  ⟨by decide, by decide,
    ((Expired_strict 1070 poolOne 1 60).1 ⟨1010, 5, "payload1"⟩ (by decide) (by decide)).1⟩

/-! ## Queries by state -/

/-- C9: called with an empty output list, `Get(s, out, n)` fills it with the
payloads of the entries in state `s` in iteration order (ascending keys in a
well-formed pool), cut to the first `n` when `n ≠ 0`; its length is
`min n (Count(s))` for `n ≠ 0` and `Count(s)` for `n = 0`; the returned flag
is true exactly when the output is not empty. -/
theorem GetByState_empty_output (P : CHoldingPool K O) (s n : Nat) :
    (n ≠ 0 → (P.GetByState s [] n).2 =
      ((P.matching s).map (fun e => e.2.Object)).take n) ∧
    (n = 0 → (P.GetByState s [] n).2 = (P.matching s).map (fun e => e.2.Object)) ∧
    (P.WellFormed → (P.matching s).Pairwise (fun a b => a.1 < b.1)) ∧
    (n ≠ 0 → (P.GetByState s [] n).2.length = min n (P.CountByState s)) ∧
    (n = 0 → (P.GetByState s [] n).2.length = P.CountByState s) ∧
    ((P.GetByState s [] n).1 = true ↔ (P.GetByState s [] n).2 ≠ []) := by
  have hlim : n ≠ 0 → (P.GetByState s [] n).2 =
      ((P.matching s).map (fun e => e.2.Object)).take n := by
    intro hn
    have := GetByStateLoop_limited s n P.mapObjects [] hn (by simp)
    simpa [GetByState, matching] using this
  have hunl : n = 0 → (P.GetByState s [] n).2 =
      (P.matching s).map (fun e => e.2.Object) := by
    intro hn
    subst hn
    have := GetByStateLoop_unlimited s P.mapObjects ([] : List O)
    simpa [GetByState, matching] using this
  refine ⟨hlim, hunl, ?_, ?_, ?_, ?_⟩
  · intro hwf
    exact List.Pairwise.sublist (List.filter_sublist _) hwf
  · intro hn
    rw [hlim hn, CountByState_eq]
    simp
  · intro hn
    rw [hunl hn, CountByState_eq]
    simp
  · unfold GetByState
    rw [GetByStateLoop_flag]
    simp [List.length_pos]

/-- Witness of C9 on `poolThree`, state 254, limit 1. -/
theorem GetByState_empty_output_witness :
    (1 ≠ 0) ∧
    (poolThree.GetByState 254 [] 1).2 =
      ((poolThree.matching 254).map (fun e => e.2.Object)).take 1 ∧
    poolThree.WellFormed ∧
    (poolThree.matching 254).Pairwise (fun a b => a.1 < b.1) :=
  ⟨by decide, (GetByState_empty_output poolThree 254 1).1 (by decide), by decide,
    (GetByState_empty_output poolThree 254 1).2.2.1 (by decide)⟩

/-- C10 (the code at the failing input): no entry of `poolThree` has state 7,
`Count(7)` is 0, and yet `Get(7, vObjects, 0)` called with `vObjects`
holding one element returns true, leaving `vObjects` as it was. -/
theorem GetByState_prefilled_flag :
    poolThree.CountByState 7 = 0 ∧
    poolThree.matching 7 = [] ∧
    poolThree.GetByState 7 ["x"] 0 = (true, ["x"]) := by
  decide

/-! ## Index listings, counts and State -/

/-- C11: called with an empty output list, `GetIndexes(out, n)` fills it with
the keys of the pool, strictly ascending and without duplicates, cut to the
first `n` when `n ≠ 0`; the key list is exactly the set of indexes that
satisfy `Has`; the flag is true exactly when the pool is not empty. The
state-filtered `GetIndexes(s, out, n)` returns the keys, and `Get(s, out, n)`
the payloads, of one and the same list of entries, in the same order. -/
theorem GetIndexes_empty_output (P : CHoldingPool K O) (s n : Nat) (hwf : P.WellFormed) :
    (P.GetIndexes [] n).2 = (if n = 0 then P.keys else P.keys.take n) ∧
    (P.GetIndexes [] n).2.Pairwise (fun a b => a < b) ∧
    (P.GetIndexes [] n).2.Nodup ∧
    (∀ k, k ∈ P.keys ↔ P.Has k = true) ∧
    (∀ k ∈ (P.GetIndexes [] n).2, P.Has k = true) ∧
    ((P.GetIndexes [] n).1 = true ↔ P.Count ≠ 0) ∧
    (∃ es, es = (if n = 0 then P.matching s else (P.matching s).take n) ∧
      (P.GetIndexesByState s [] n).2 = es.map Prod.fst ∧
      (P.GetByState s [] n).2 = es.map (fun e => e.2.Object)) := by
  have hout : (P.GetIndexes [] n).2 = (if n = 0 then P.keys else P.keys.take n) := by
    by_cases hn : n = 0
    · subst hn
      simp [GetIndexes, keys, GetIndexesLoop_unlimited]
    · have := GetIndexesLoop_limited n P.mapObjects [] hn (by simp)
      simpa [GetIndexes, keys, hn] using this
  have hsub : (P.GetIndexes [] n).2.Sublist P.keys := by
    rw [hout]
    split_ifs
    · exact List.Sublist.refl _
    · exact List.take_sublist _ _
  have hpw : (P.GetIndexes [] n).2.Pairwise (fun a b => a < b) :=
    List.Pairwise.sublist hsub (keys_pairwise P hwf)
  refine ⟨hout, hpw, hpw.imp (fun h => ne_of_lt h), mem_keys_iff_Has P, ?_, ?_, ?_⟩
  · intro k hk
    exact (mem_keys_iff_Has P k).1 (hsub.subset hk)
  · unfold GetIndexes at hout ⊢
    rw [GetIndexesLoop_flag, hout]
    unfold Count keys
    by_cases hn : n = 0
    · simp [hn, Nat.pos_iff_ne_zero]
    · simp only [hn, if_false, List.length_take, List.length_map, decide_eq_true_eq]
      omega
  · refine ⟨_, rfl, ?_, ?_⟩
    · by_cases hn : n = 0
      · subst hn
        simp [GetIndexesByState, matching, GetIndexesByStateLoop_unlimited]
      · have := GetIndexesByStateLoop_limited s n P.mapObjects [] hn (by simp)
        simpa [GetIndexesByState, matching, hn, List.map_take] using this
    · by_cases hn : n = 0
      · subst hn
        simp [GetByState, matching, GetByStateLoop_unlimited]
      · have := GetByStateLoop_limited s n P.mapObjects [] hn (by simp)
        simpa [GetByState, matching, hn, List.map_take] using this

/-- Witness of C11 on `poolThree`, state 254, limit 2. -/
theorem GetIndexes_empty_output_witness :
    poolThree.WellFormed ∧
    (poolThree.GetIndexes [] 2).2 = (if 2 = 0 then poolThree.keys else poolThree.keys.take 2) ∧
    ((poolThree.GetIndexes [] 2).1 = true ↔ poolThree.Count ≠ 0) :=
  ⟨by decide, (GetIndexes_empty_output poolThree 254 2 (by decide)).1,
    (GetIndexes_empty_output poolThree 254 2 (by decide)).2.2.2.2.2.1⟩

/-- C12: `Count()` is the number of indexes for which `Has` holds, and the sum
of `Count(s)` over any finite set of codes that contains the state of every
entry, in particular over the 256 codes of an `unsigned char`, is `Count()`. -/
theorem Count_spec (P : CHoldingPool K O) (hwf : P.WellFormed) :
    Set.ncard {i | P.Has i = true} = P.Count ∧
    (P.keys.Nodup ∧ (∀ i, i ∈ P.keys ↔ P.Has i = true) ∧ P.keys.length = P.Count) ∧
    (∀ S : Finset Nat, (∀ e ∈ P.mapObjects, e.2.State ∈ S) →
      (∑ s in S, P.CountByState s) = P.Count) ∧
    (P.InRange → (∑ s in Finset.range 256, P.CountByState s) = P.Count) := by
  have hnd := keys_nodup P hwf
  have hlen : P.keys.length = P.Count := by simp [keys, Count]
  have hsum : ∀ S : Finset Nat, (∀ e ∈ P.mapObjects, e.2.State ∈ S) →
      (∑ s in S, P.CountByState s) = P.Count := by
    intro S hS
    simp only [CountByState_eq, matching]
    exact sum_filter_state_length S P.mapObjects hS
  refine ⟨?_, ⟨hnd, mem_keys_iff_Has P, hlen⟩, hsum, ?_⟩
  · have hset : {i | P.Has i = true} = (↑P.keys.toFinset : Set K) := by
      ext i
      simp [mem_keys_iff_Has]
    rw [hset, Set.ncard_coe_Finset, List.toFinset_card_of_nodup hnd, hlen]
  · intro hr
    exact hsum _ (fun e he => Finset.mem_range.2 (hr e he).1)

/-- Witness of C12 on `poolThree`. -/
theorem Count_spec_witness :
    poolThree.WellFormed ∧ poolThree.InRange ∧
    Set.ncard {i | poolThree.Has i = true} = poolThree.Count ∧
    (∑ s in Finset.range 256, poolThree.CountByState s) = poolThree.Count :=
  ⟨by decide, by decide, (Count_spec poolThree (by decide)).1,
    (Count_spec poolThree (by decide)).2.2.2 (by decide)⟩

/-- C13: `State(i)` is 255 (`NOTFOUND`) when `i` is absent and the state code
stored in the entry of `i` otherwise. `State` is a `const` member: it yields
a value and no new pool. -/
theorem State_spec (P : CHoldingPool K O) (i : K) :
    (P.Has i = false → P.State i = 255) ∧
    (∀ h, P.entry i = some h → P.Has i = true ∧ P.State i = h.State) := by
  refine ⟨?_, ?_⟩
  · intro h
    rw [State_of_absent P i ((Has_false_iff P i).1 h)]
    rfl
  · intro h he
    exact ⟨(Has_true_iff P i).2 ⟨h, he⟩, State_of_entry P i h he⟩

/-- Witness of C13 on `poolThree`: the absent index 5 and the present index 4. -/
theorem State_spec_witness :
    poolThree.Has 5 = false ∧ poolThree.State 5 = 255 ∧
    poolThree.entry 4 = some ⟨1010, 5, "b"⟩ ∧ poolThree.State 4 = 5 :=
  ⟨by decide, (State_spec poolThree 5).1 (by decide), by decide,
    ((State_spec poolThree 4).2 ⟨1010, 5, "b"⟩ (by decide)).2⟩

/-! ## The reserved state code, SetTimestamp, Age -/

/-- C14 (as stated, refuted): one call `Add(1, "x", 255, 0)` on the empty pool
stores an entry with state 255; `State(1)` is then 255 for an index that is
present. -/
theorem run_stores_NOTFOUND_counterexample :
    ((base : CHoldingPool Nat String).run [Op.Add 1 "x" 255 0]).entry 1 =
      some ⟨0, 255, "x"⟩ ∧
    ((base : CHoldingPool Nat String).run [Op.Add 1 "x" 255 0]).Has 1 = true ∧
    ((base : CHoldingPool Nat String).run [Op.Add 1 "x" 255 0]).State 1 = 255 := by
  decide

/-- C14 (amended): in every pool reached from a newly constructed pool, built
by `CHoldingPool()` or by `CHoldingPool(n)` for any `n`, by a finite sequence
of calls of `Add`, `Update`, `SetState`, `SetTimestamp`, `Remove` and `Clean`
none of which passes 255 as its state argument, no entry has state 255, and
`State(i)` is 255 exactly for the absent indexes. (`AddState` as written
cannot be instantiated, so no sequence contains a call of it.) -/
theorem run_avoids_NOTFOUND (P0 : CHoldingPool K O) (ops : List (Op K O))
    (hnew : P0 = base ∨ ∃ n, P0 = withExpiration n)
    (hops : ∀ op ∈ ops, avoidsNotFound op = true) :
    (∀ e ∈ (P0.run ops).mapObjects, e.2.State ≠ 255) ∧
    (∀ i, (P0.run ops).State i = 255 ↔ (P0.run ops).Has i = false) := by
  have hgen : ∀ (l : List (Op K O)) (P : CHoldingPool K O),
      (∀ op ∈ l, avoidsNotFound op = true) →
      (∀ e ∈ P.mapObjects, e.2.State ≠ NOTFOUND) →
      ∀ e ∈ (P.run l).mapObjects, e.2.State ≠ NOTFOUND := by
    intro l
    induction l with
    | nil => intro P _ hP; exact hP
    | cons op rest ih =>
      intro P hl hP
      have hop : avoidsNotFound op = true := hl op (List.mem_cons_self _ _)
      have hstep := step_keeps (fun h => h.State ≠ NOTFOUND) P op hP
        (fun _ _ hs _ => hs hop) (fun _ _ _ hs => hs hop)
        (fun _ _ hh => hh) (fun _ _ hh => hh)
      exact ih (P.step op) (fun o ho => hl o (List.mem_cons_of_mem _ ho)) hstep
  have hempty : P0.mapObjects = [] := by
    rcases hnew with h | ⟨n, h⟩
    · rw [h]; rfl
    · rw [h]; rfl
  have hinv := hgen ops P0 hops (by simp [hempty])
  refine ⟨hinv, ?_⟩
  intro i
  constructor
  · intro hs
    cases he : (P0.run ops).entry i with
    | none => exact (Has_false_iff _ i).2 he
    | some h =>
      rw [State_of_entry _ i h he] at hs
      exact absurd hs (hinv (i, h) (mem_of_mapFind i h _ he))
  · intro hh
    rw [State_of_absent _ i ((Has_false_iff _ i).1 hh)]
    rfl

/-- Witness of C14 (amended): on a pool built with expiration time 60,
`Add(1, "x", 254, 1000)`, then `SetState(1, 5)` at time 1010. -/
theorem run_avoids_NOTFOUND_witness :
    (∀ op ∈ [Op.Add 1 "x" 254 1000, Op.SetState 1010 1 5],
      avoidsNotFound (op : Op Nat String) = true) ∧
    (∀ e ∈ ((withExpiration 60 : CHoldingPool Nat String).run
      [Op.Add 1 "x" 254 1000, Op.SetState 1010 1 5]).mapObjects, e.2.State ≠ 255) ∧
    ((withExpiration 60 : CHoldingPool Nat String).run
      [Op.Add 1 "x" 254 1000, Op.SetState 1010 1 5]).State 1 = 5 :=
  ⟨by decide,
    (run_avoids_NOTFOUND (withExpiration 60)
      [Op.Add 1 "x" 254 1000, Op.SetState 1010 1 5] (Or.inr ⟨60, rfl⟩) (by decide)).1,
    by decide⟩

/-- C16 (the code at the failing input): the entry of index 1 of `poolOne` has
timestamp 1010; `SetTimestamp(1, 2 ^ 32 + 5)` leaves it with timestamp 5,
while `Update` with the same timestamp stores `2 ^ 32 + 5`. -/
theorem SetTimestamp_truncates :
    poolOne.Has 1 = true ∧
    4294967301 < 2 ^ 64 ∧
    (poolOne.SetTimestamp 1 4294967301).entry 1 = some ⟨5, 5, "payload1"⟩ ∧
    (poolOne.Update 1 "payload1" 5 4294967301).2.entry 1 =
      some ⟨4294967301, 5, "payload1"⟩ := by
  decide

/-- C17 (as stated, refuted): the entry of `poolOne` has timestamp 1010; at
current time `2 ^ 32 + 1010` the difference is `2 ^ 32`, and `Age` returns 0. -/
theorem Age_exact_counterexample :
    poolOne.entry 1 = some ⟨1010, 5, "payload1"⟩ ∧
    1010 ≤ 4294968306 ∧
    4294968306 < 2 ^ 64 ∧
    poolOne.Age 4294968306 1 = 0 ∧
    ¬ (poolOne.Age 4294968306 1 = 4294968306 - 1010) := by
  decide

/-- C17 (amended): `Age(i)` is 0 for an absent index; for an index present
with timestamp `t` not later than the current time (a `uint64`) it is
`(now - t) mod 2 ^ 32`, which is `now - t` whenever `now - t` is below
`2 ^ 32`. -/
theorem Age_spec (now : Nat) (P : CHoldingPool K O) (i : K) :
    (P.Has i = false → P.Age now i = 0) ∧
    (∀ h, P.entry i = some h → h.Timestamp ≤ now → now < 2 ^ 64 →
      P.Age now i = (now - h.Timestamp) % 2 ^ 32 ∧
      (now - h.Timestamp < 2 ^ 32 → P.Age now i = now - h.Timestamp)) := by
  refine ⟨?_, ?_⟩
  · intro h
    simp [Age, h]
  · intro h he hle hnow
    have h1 : (now + 2 ^ 64 - h.Timestamp) % 2 ^ 64 = now - h.Timestamp := by
      have h2 : now + 2 ^ 64 - h.Timestamp = (now - h.Timestamp) + 2 ^ 64 := by omega
      rw [h2, Nat.add_mod_right]
      exact Nat.mod_eq_of_lt (by omega)
    rw [Age_of_entry now P i h he, h1]
    exact ⟨rfl, fun hlt => Nat.mod_eq_of_lt hlt⟩

/-- Witness of C17 (amended) on `poolOne` at time 1075. -/
theorem Age_spec_witness :
    poolOne.entry 1 = some ⟨1010, 5, "payload1"⟩ ∧
    1010 ≤ 1075 ∧ 1075 < 2 ^ 64 ∧ 1075 - 1010 < 2 ^ 32 ∧
    poolOne.Age 1075 1 = 1075 - 1010 :=
  ⟨by decide, by decide, by decide, by decide,
    ((Age_spec 1075 poolOne 1).2 ⟨1010, 5, "payload1"⟩ (by decide) (by decide)
      (by decide)).2 (by decide)⟩

/-! ## Expiration time 0 and the example scenario -/

/-- C18 (as stated, refuted): `poolZero` has expiration time 0 and one entry
stamped 1000; `Clean()` at time 1000 removes nothing and returns 0. -/
theorem Clean_window_zero_counterexample :
    poolZero = ((withExpiration 0 : CHoldingPool Nat String).Add 1 "a" 254 1000).2 ∧
    poolZero.nExpirationTime = 0 ∧
    poolZero.entry 1 = some ⟨1000, 254, "a"⟩ ∧
    1000 ≥ 1000 ∧
    (poolZero.Clean 1000).1 = 0 ∧
    (poolZero.Clean 1000).2.Has 1 = true ∧
    (poolZero.Clean 1000).2.Count = 1 ∧
    poolZero.Count = 1 := by
  decide

/-- C18 (amended): in a pool with expiration time 0, `Clean()` at time `now`
removes every entry whose timestamp is strictly below `now` and keeps every
entry stamped `now` or later; when all timestamps are below `now` it empties
the pool and returns the previous `Count()`. -/
theorem Clean_window_zero (now : Nat) (P : CHoldingPool K O) (hwf : P.WellFormed)
    (h0 : P.nExpirationTime = 0) :
    (∀ i h, P.entry i = some h → h.Timestamp < now → (P.Clean now).2.Has i = false) ∧
    (∀ i h, P.entry i = some h → h.Timestamp < 2 ^ 64 → now ≤ h.Timestamp →
      (P.Clean now).2.entry i = some h) ∧
    ((∀ e ∈ P.mapObjects, e.2.Timestamp < now) →
      (P.Clean now).1 = P.Count ∧ (P.Clean now).2.Count = 0 ∧
      (P.Clean now).2.mapObjects = []) := by
  have hexp : ∀ i h, P.entry i = some h → h.Timestamp < now →
      P.Expired now i P.nExpirationTime = true := by
    intro i h he hlt
    rw [Expired_of_entry now P i _ h he, h0]
    have : (h.Timestamp + 0) % 2 ^ 64 ≤ h.Timestamp := Nat.mod_le _ _
    simp only [decide_eq_true_eq]
    omega
  refine ⟨?_, ?_, ?_⟩
  · intro i h he hlt
    rw [Has_false_iff, Clean_entry now P hwf i, hexp i h he hlt]
    rfl
  · intro i h he hr hle
    have hne : P.Expired now i P.nExpirationTime = false := by
      rw [Expired_of_entry now P i _ h he, h0]
      have : (h.Timestamp + 0) % 2 ^ 64 = h.Timestamp := Nat.mod_eq_of_lt hr
      simp only [decide_eq_false_iff_not]
      omega
    rw [Clean_entry now P hwf i, hne]
    simpa using he
  · intro hall
    have hfil : ∀ e ∈ P.mapObjects, P.Expired now e.1 P.nExpirationTime = true := by
      intro e he
      cases hf : P.entry e.1 with
      | none => exact Expired_of_absent now P e.1 _ hf
      | some h => exact hexp e.1 h hf (hall (e.1, h) (mem_of_mapFind e.1 h _ hf))
    have h1 : P.mapObjects.filter (fun e => P.Expired now e.1 P.nExpirationTime) =
        P.mapObjects := List.filter_eq_self.2 hfil
    have h2 : (P.Clean now).2.mapObjects = [] := by
      rw [Clean_mapObjects now P hwf]
      exact List.filter_eq_nil_iff.2 (fun e he => by simp [hfil e he])
    refine ⟨?_, ?_, h2⟩
    · rw [Clean_fst, h1]
      rfl
    · simp [Count, h2]

/-- Witness of C18 (amended) on `poolZero` at time 1001. -/
theorem Clean_window_zero_witness :
    poolZero.WellFormed ∧ poolZero.nExpirationTime = 0 ∧
    (∀ e ∈ poolZero.mapObjects, e.2.Timestamp < 1001) ∧
    (poolZero.Clean 1001).1 = poolZero.Count ∧ (poolZero.Clean 1001).2.Count = 0 :=
  ⟨by decide, by decide, by decide,
    ((Clean_window_zero 1001 poolZero (by decide) (by decide)).2.2 (by decide)).1,
    ((Clean_window_zero 1001 poolZero (by decide) (by decide)).2.2 (by decide)).2.1⟩

/-- C19: the example scenario. On a pool built with expiration time 60,
`Add(1, "payload1")` at time 1000 returns true, `State(1)` is 254 and `Get(1)`
returns `(true, "payload1")`; after `SetState(1, 5)` at time 1010, `State(1)`
is 5, the timestamp is 1010 and the payload is still `"payload1"`; at time
1075 `Expired(1, 60)` is true, `Clean()` returns 1 and `Count()` is then 0. -/
theorem example_scenario :
    (AddDefault 1000 (withExpiration 60 : CHoldingPool Nat String) 1 "payload1").1 = true ∧
    scenarioAdded.State 1 = 254 ∧
    scenarioAdded.Get 1 "" = (true, "payload1") ∧
    scenarioSet.State 1 = 5 ∧
    scenarioSet.entry 1 = some ⟨1010, 5, "payload1"⟩ ∧
    scenarioSet.Get 1 "" = (true, "payload1") ∧
    scenarioSet.Expired 1075 1 60 = true ∧
    (scenarioSet.Clean 1075).1 = 1 ∧
    (scenarioSet.Clean 1075).2.Count = 0 := by
  decide

end CHoldingPool

end LLP
